import Mathlib

set_option maxRecDepth 4000

/-!
Shallow embedding of `src/main.rs` (a tokio-0.1 style TCP "cache session"
server).  The heart of the program is the hand-rolled future
`CacheSession::poll`, a resumable state machine that

  1. pulls decoded lines from a line reader while `pos == cap` and the read
     side is not done, incrementing `amt` once per line and setting
     `read_done` at end-of-stream;
  2. drains `buf[pos..cap]` into the write half while `pos < cap`, treating a
     zero-byte write of a non-empty range as a fatal `WriteZero` error;
  3. once `pos == cap` and `read_done`, flushes the write half and resolves
     with `(amt, reader, writer)`, `take`ing both halves out of the session.

The environment (the peer's data, the write half's readiness, the flush's
readiness) is modelled by explicit event scripts, one per I/O direction.  An
exhausted script behaves like a channel that is never ready again.
-/

/-- The `std::io::ErrorKind` values this program can produce or observe. -/
inductive ErrorKind : Type
  | writeZero
  | invalidData
  | other (code : Nat)
deriving DecidableEq

/-- An `std::io::Error`: a kind plus a message. -/
structure IOError : Type where
  kind : ErrorKind
  msg : String
deriving DecidableEq

/-- The error built at `main.rs` line 96:
`io::Error::new(io::ErrorKind::WriteZero, "write zero byte into writer")`. -/
def writeZeroError : IOError := ⟨ErrorKind.writeZero, "write zero byte into writer"⟩

/-- The state of `struct CacheSession` (`main.rs` lines 35-43).  The
`reader`/`writer` fields are `Option`s of opaque handles; only their
presence matters to the state machine, so they are embedded as `Bool`
(`true` = `Some`).  `buf` holds the bytes of the `Box<[u8]>`. -/
structure CacheSession : Type where
  reader : Bool
  read_done : Bool
  writer : Bool
  pos : Nat
  cap : Nat
  amt : Nat
  buf : List Nat
deriving DecidableEq

/-- `cache_session(reader, writer)` (`main.rs` lines 45-63): both halves
present, `read_done = false`, `amt = pos = cap = 0`, a zeroed 2048-byte
buffer. -/
def cache_session : CacheSession :=
  { reader := true
    read_done := false
    writer := true
    pos := 0
    cap := 0
    amt := 0
    buf := List.replicate 2048 0 }

/-- One response of the line reader to a `poll()` call: not ready, a decoded
line (its bytes; the text's content is never used by the session beyond
logging), end-of-stream (`None`), or an `io::Error` (this is also how a
decode failure of invalid text surfaces). -/
inductive ReadEvent : Type
  | notReady
  | line (bytes : List Nat)
  | eof
  | err (e : IOError)
deriving DecidableEq

/-- One response of the write half to `poll_write`: not ready, `Ok(n)` bytes
accepted, or an `io::Error`. -/
inductive WriteEvent : Type
  | notReady
  | wrote (n : Nat)
  | err (e : IOError)
deriving DecidableEq

/-- One response of the write half to `poll_flush`. -/
inductive FlushEvent : Type
  | notReady
  | flushOk
  | err (e : IOError)
deriving DecidableEq

/-- The observable result of one call to `CacheSession::poll`, together with
the session state it leaves behind: `Ok(Async::Ready((amt, r, w)))`,
`Ok(Async::NotReady)`, `Err(e)`, a Rust panic (an `unwrap` of `None` or an
out-of-range slice), or divergence (the `loop` spins forever). -/
inductive Outcome : Type
  | ready (amt : Nat) (s : CacheSession)
  | notReady (s : CacheSession)
  | ioErr (e : IOError) (s : CacheSession)
  | panicked (s : CacheSession)
  | diverge (s : CacheSession)
deriving DecidableEq

/-- The session state an outcome leaves behind. -/
def Outcome.state : Outcome → CacheSession
  | .ready _ s => s
  | .notReady s => s
  | .ioErr _ s => s
  | .panicked s => s
  | .diverge s => s

/-- Result of the drain `while` loop: either fall through to the completion
check with an updated state and the unconsumed write events, or exit
`poll` altogether with an outcome. -/
inductive DrainStep : Type
  | proceed (s : CacheSession) (ws : List WriteEvent)
  | exit (o : Outcome)
deriving DecidableEq

/-- `while self.pos < self.cap { ... }` (`main.rs` lines 93-105).  Each
iteration unwraps the writer (panic if absent), takes the slice
`buf[pos..cap]` (panic if `cap` exceeds the buffer's length), and offers it
to the write half.  `Ok(0)` is the fatal `WriteZero` error; `Ok(n)` with
`n > 0` advances `pos` and `amt` by `n`. -/
def drainLoop : CacheSession → List WriteEvent → DrainStep
  | s, [] =>
      if s.pos < s.cap then
        if s.writer = false then .exit (.panicked s)
        else if s.buf.length < s.cap then .exit (.panicked s)
        else .exit (.notReady s)
      else .proceed s []
  | s, w :: ws' =>
      if s.pos < s.cap then
        if s.writer = false then .exit (.panicked s)
        else if s.buf.length < s.cap then .exit (.panicked s)
        else
          match w with
          | .notReady => .exit (.notReady s)
          | .err e => .exit (.ioErr e s)
          | .wrote n =>
              if n = 0 then .exit (.ioErr writeZeroError s)
              else drainLoop { s with pos := s.pos + n, amt := s.amt + n } ws'
      else .proceed s (w :: ws')

/-- The completion check (`main.rs` lines 110-115), reached with
`pos == cap && read_done`: unwrap the writer (panic if absent), flush, and
on success `take` the reader then the writer out of the session (panic if
the reader is absent) and resolve with `(amt, reader, writer)`. -/
def flushPhase (s : CacheSession) (fs : List FlushEvent) : Outcome :=
  if s.writer = false then .panicked s
  else
    match fs with
    | [] => .notReady s
    | .notReady :: _ => .notReady s
    | .err e :: _ => .ioErr e s
    | .flushOk :: _ =>
        if s.reader = false then .panicked s
        else .ready s.amt { s with reader := false, writer := false }

/-- Result of the tail of one `loop` iteration (drain loop plus completion
check): either `poll` returns with an outcome, or control goes back to the
top of the `loop`. -/
inductive LoopStep : Type
  | out (o : Outcome)
  | again (s : CacheSession) (ws : List WriteEvent)
deriving DecidableEq

/-- The tail of one `loop` iteration after the fill check: run the drain
loop, then the completion check; when neither returns, go back to the top
of the `loop`.  A state with `pos > cap` falls through every guard and makes
the `loop` spin forever without consuming any event: that is `diverge`. -/
def afterFill (s : CacheSession) (ws : List WriteEvent) (fs : List FlushEvent) : LoopStep :=
  match drainLoop s ws with
  | .exit o => .out o
  | .proceed s' ws' =>
      if s'.pos = s'.cap then
        if s'.read_done then .out (flushPhase s' fs)
        else .again s' ws'
      else .out (.diverge s')

/-- `CacheSession::poll` (`main.rs` lines 74-116) with an explicit fuel for
the outer `loop`.  Each `loop` iteration that comes back to the top consumes
at least one event of a script, so `rs.length + ws.length + 1` fuel is
always enough (see `CacheSession.poll`); exhausted fuel is reported as
divergence. -/
def pollFuel : Nat → CacheSession → List ReadEvent → List WriteEvent → List FlushEvent → Outcome
  | 0, s, _, _, _ => .diverge s
  | k + 1, s, rs, ws, fs =>
      if s.pos = s.cap then
        if s.read_done then
          match afterFill s ws fs with
          | .out o => o
          | .again s' ws' => pollFuel k s' rs ws' fs
        else
          -- the fill check: `self.reader.as_mut().unwrap()` then poll the
          -- line reader
          if s.reader = false then .panicked s
          else
            match rs with
            | [] => .notReady s
            | .notReady :: _ => .notReady s
            | .err e :: _ => .ioErr e s
            | .line _l :: rs' =>
                match afterFill { s with amt := s.amt + 1 } ws fs with
                | .out o => o
                | .again s' ws' => pollFuel k s' rs' ws' fs
            | .eof :: rs' =>
                match afterFill { s with read_done := true } ws fs with
                | .out o => o
                | .again s' ws' => pollFuel k s' rs' ws' fs
      else
        match afterFill s ws fs with
        | .out o => o
        | .again s' ws' => pollFuel k s' rs ws' fs

/-- One call to `CacheSession::poll` against the given event scripts. -/
def CacheSession.poll (s : CacheSession) (rs : List ReadEvent) (ws : List WriteEvent)
    (fs : List FlushEvent) : Outcome :=
  pollFuel (rs.length + ws.length + 1) s rs ws fs

/-- `s.step t`: state `t` is the state left behind by some call to
`poll` on state `s` (under some environment scripts). -/
def CacheSession.step (s t : CacheSession) : Prop :=
  ∃ rs ws fs, (CacheSession.poll s rs ws fs).state = t

/-- States reachable from the freshly constructed session by repeated
`poll` calls. -/
def Reachable (s : CacheSession) : Prop :=
  Relation.ReflTransGen CacheSession.step cache_session s

/-- Number of newline (byte 10) delimiters in a byte sequence; one per
newline-terminated line. -/
def countNewlines : List Nat → Nat
  | [] => 0
  | b :: bs => (if b = 10 then 1 else 0) + countNewlines bs

/-- Modelled from the spec: the Line Reader's decode buffer (§4.1, the
`tokio::io::lines`/`BufReader` wrapper is library code outside `src/`).
Splits the bytes accumulated so far into the complete (newline-terminated,
delimiter stripped) lines and the trailing remainder that still awaits its
delimiter. -/
def extractLines : List Nat → List (List Nat) × List Nat
  | [] => ([], [])
  | b :: bs =>
      if b = 10 then ([] :: (extractLines bs).1, (extractLines bs).2)
      else
        match extractLines bs with
        | ([], r) => ([], b :: r)
        | (l :: ls, r) => ((b :: l) :: ls, r)

/-- Modelled from the spec: the Line Reader run against a read half that
yields the given byte chunks, one chunk per underlying read, and then
end-of-stream (§4.1).  Each chunk is appended to the decode buffer and every
line completed by it is produced; at end-of-stream an incomplete trailing
line is never completed (§8: "no line is counted (incomplete line is never
completed)"). -/
def lineReaderRun : List Nat → List (List Nat) → List (List Nat)
  | _acc, [] => []
  | acc, c :: cs =>
      (extractLines (acc ++ c)).1 ++ lineReaderRun (extractLines (acc ++ c)).2 cs

/-- Modelled from the spec: the full sequence of `next_line()` results the
relay session observes from a peer that sends the given chunks and then
closes its write side — one `line` event per completed line, then
end-of-stream (§4.1). -/
def readEventsOf (chunks : List (List Nat)) : List ReadEvent :=
  (lineReaderRun [] chunks).map ReadEvent.line ++ [ReadEvent.eof]

theorem countNewlines_append (xs ys : List Nat) :
    countNewlines (xs ++ ys) = countNewlines xs + countNewlines ys := by
  induction xs with
  | nil => simp [countNewlines]
  | cons b bs ih => simp [countNewlines, ih]; omega

theorem extractLines_fst_length (bs : List Nat) :
    (extractLines bs).1.length = countNewlines bs := by
  induction bs with
  | nil => simp [extractLines, countNewlines]
  | cons b bs ih =>
      by_cases hb : b = 10
      · simp [extractLines, countNewlines, hb, ih]; omega
      · rcases h : extractLines bs with ⟨ls, r⟩
        rcases ls with _ | ⟨l, ls⟩ <;>
          simp_all [extractLines, countNewlines, hb]

theorem extractLines_snd_count (bs : List Nat) :
    countNewlines (extractLines bs).2 = 0 := by
  induction bs with
  | nil => simp [extractLines, countNewlines]
  | cons b bs ih =>
      by_cases hb : b = 10
      · simpa [extractLines, hb] using ih
      · rcases h : extractLines bs with ⟨ls, r⟩
        rcases ls with _ | ⟨l, ls⟩ <;>
          simp_all [extractLines, countNewlines, hb]

/-- Chunking invariance of the modelled Line Reader: however the peer's
bytes are split into reads, the number of produced lines is the number of
newline delimiters in the concatenation (an incomplete trailing line is
dropped). -/
theorem lineReaderRun_length :
    ∀ (cs : List (List Nat)) (acc : List Nat), countNewlines acc = 0 →
      (lineReaderRun acc cs).length = countNewlines (acc ++ cs.flatten) := by
  intro cs
  induction cs with
  | nil => intro acc h; simpa [lineReaderRun] using h.symm
  | cons c cs ih =>
      intro acc h
      have hrest := ih (extractLines (acc ++ c)).2 (extractLines_snd_count (acc ++ c))
      simp only [lineReaderRun, List.length_append, List.flatten_cons]
      rw [extractLines_fst_length, hrest]
      simp only [countNewlines_append, extractLines_snd_count]
      omega

example : cache_session.poll [ReadEvent.eof] [] [FlushEvent.flushOk] =
    Outcome.ready 0
      { reader := false, read_done := true, writer := false, pos := 0, cap := 0, amt := 0,
        buf := List.replicate 2048 0 } := by
  rfl

example : cache_session.poll [ReadEvent.line [104, 105], ReadEvent.eof] [] [FlushEvent.flushOk] =
    Outcome.ready 1
      { reader := false, read_done := true, writer := false, pos := 0, cap := 0, amt := 1,
        buf := List.replicate 2048 0 } := by
  rfl

/-- When the pending region is empty the drain `while` loop runs zero
iterations and consumes nothing. -/
theorem drainLoop_skip (s : CacheSession) (ws : List WriteEvent) (h : ¬ s.pos < s.cap) :
    drainLoop s ws = .proceed s ws := by
  cases ws <;> simp [drainLoop, h]

/-- Falling out of the drain loop preserves every field except `pos` and
`amt`, and leaves `pos ≥ cap`. -/
theorem drainLoop_proceed :
    ∀ (ws : List WriteEvent) (s s' : CacheSession) (ws' : List WriteEvent),
      drainLoop s ws = .proceed s' ws' →
      s'.read_done = s.read_done ∧ s'.cap = s.cap ∧ s'.reader = s.reader ∧
        s'.writer = s.writer ∧ s'.buf = s.buf ∧ ¬ s'.pos < s'.cap := by
  intro ws
  induction ws with
  | nil =>
      intro s s' ws' h
      by_cases hp : s.pos < s.cap
      · by_cases hw : s.writer = false
        · simp [drainLoop, hp, hw] at h
        · by_cases hb : s.buf.length < s.cap
          · simp [drainLoop, hp, hw, hb] at h
          · simp [drainLoop, hp, hw, hb] at h
      · rw [drainLoop_skip s [] hp] at h
        cases h
        exact ⟨rfl, rfl, rfl, rfl, rfl, hp⟩
  | cons w ws ih =>
      intro s s' ws' h
      by_cases hp : s.pos < s.cap
      · by_cases hw : s.writer = false
        · simp [drainLoop, hp, hw] at h
        · by_cases hb : s.buf.length < s.cap
          · simp [drainLoop, hp, hw, hb] at h
          · cases w with
            | notReady => simp [drainLoop, hp, hw, hb] at h
            | err e => simp [drainLoop, hp, hw, hb] at h
            | wrote n =>
                by_cases hn : n = 0
                · simp [drainLoop, hp, hw, hb, hn] at h
                · simp only [drainLoop, if_pos hp, if_neg hw, if_neg hb,
                    if_neg hn] at h
                  have hx := ih _ s' ws' h
                  simpa using hx
      · rw [drainLoop_skip s (w :: ws) hp] at h
        cases h
        exact ⟨rfl, rfl, rfl, rfl, rfl, hp⟩

/-- An exit of the drain loop is never a successful resolution, and it
preserves every field except `pos` and `amt`. -/
theorem drainLoop_exit :
    ∀ (ws : List WriteEvent) (s : CacheSession) (o : Outcome),
      drainLoop s ws = .exit o →
      (∀ a t, o ≠ .ready a t) ∧ o.state.read_done = s.read_done ∧
        o.state.cap = s.cap ∧ o.state.reader = s.reader ∧
        o.state.writer = s.writer ∧ o.state.buf = s.buf := by
  intro ws
  induction ws with
  | nil =>
      intro s o h
      by_cases hp : s.pos < s.cap
      · by_cases hw : s.writer = false
        · simp only [drainLoop, if_pos hp, if_pos hw] at h
          cases h
          simp [Outcome.state]
        · by_cases hb : s.buf.length < s.cap
          · simp only [drainLoop, if_pos hp, if_neg hw, if_pos hb] at h
            cases h
            simp [Outcome.state]
          · simp only [drainLoop, if_pos hp, if_neg hw, if_neg hb] at h
            cases h
            simp [Outcome.state]
      · rw [drainLoop_skip s [] hp] at h
        cases h
  | cons w ws ih =>
      intro s o h
      by_cases hp : s.pos < s.cap
      · by_cases hw : s.writer = false
        · simp only [drainLoop, if_pos hp, if_pos hw] at h
          cases h
          simp [Outcome.state]
        · by_cases hb : s.buf.length < s.cap
          · simp only [drainLoop, if_pos hp, if_neg hw, if_pos hb] at h
            cases h
            simp [Outcome.state]
          · cases w with
            | notReady =>
                simp only [drainLoop, if_pos hp, if_neg hw, if_neg hb] at h
                cases h
                simp [Outcome.state]
            | err e =>
                simp only [drainLoop, if_pos hp, if_neg hw, if_neg hb] at h
                cases h
                simp [Outcome.state]
            | wrote n =>
                by_cases hn : n = 0
                · simp only [drainLoop, if_pos hp, if_neg hw, if_neg hb,
                    if_pos hn] at h
                  cases h
                  simp [Outcome.state]
                · simp only [drainLoop, if_pos hp, if_neg hw, if_neg hb,
                    if_neg hn] at h
                  have hx := ih _ o h
                  simpa using hx
      · rw [drainLoop_skip s (w :: ws) hp] at h
        cases h

/-- The completion check touches only the `reader`/`writer` fields of the
state it leaves behind. -/
theorem flushPhase_state (s : CacheSession) (fs : List FlushEvent) :
    (flushPhase s fs).state.read_done = s.read_done ∧
      (flushPhase s fs).state.pos = s.pos ∧ (flushPhase s fs).state.cap = s.cap ∧
      (flushPhase s fs).state.buf = s.buf ∧ (flushPhase s fs).state.amt = s.amt := by
  by_cases hw : s.writer = false
  · simp [flushPhase, hw, Outcome.state]
  · rcases fs with _ | ⟨f, fs⟩
    · simp [flushPhase, hw, Outcome.state]
    · cases f with
      | notReady => simp [flushPhase, hw, Outcome.state]
      | err e => simp [flushPhase, hw, Outcome.state]
      | flushOk =>
          by_cases hr : s.reader = false
          · simp [flushPhase, hw, hr, Outcome.state]
          · simp [flushPhase, hw, hr, Outcome.state]

/-- The completion check resolves successfully only by consuming a
successful flush, and it then clears both halves and reports the tally. -/
theorem flushPhase_ready (s : CacheSession) (fs : List FlushEvent) (a : Nat)
    (t : CacheSession) (h : flushPhase s fs = .ready a t) :
    t = { s with reader := false, writer := false } ∧ a = s.amt ∧
      FlushEvent.flushOk ∈ fs := by
  by_cases hw : s.writer = false
  · simp [flushPhase, hw] at h
  · rcases fs with _ | ⟨f, fs⟩
    · simp [flushPhase, hw] at h
    · cases f with
      | notReady => simp [flushPhase, hw] at h
      | err e => simp [flushPhase, hw] at h
      | flushOk =>
          by_cases hr : s.reader = false
          · simp [flushPhase, hw, hr] at h
          · simp only [flushPhase, if_neg hw, if_neg hr] at h
            cases h
            exact ⟨rfl, rfl, by simp⟩

/-- What one `poll` call does once `read_done` is set: drain, then (when the
pending region is empty) flush.  The line reader plays no part. -/
def pollDone (s : CacheSession) (ws : List WriteEvent) (fs : List FlushEvent) : Outcome :=
  match drainLoop s ws with
  | .exit o => o
  | .proceed s' _ => if s'.pos = s'.cap then flushPhase s' fs else .diverge s'

theorem afterFill_read_done (s : CacheSession) (ws : List WriteEvent)
    (fs : List FlushEvent) (h : s.read_done = true) :
    afterFill s ws fs = .out (pollDone s ws fs) := by
  unfold afterFill pollDone
  cases hd : drainLoop s ws with
  | exit o => rfl
  | proceed s' ws' =>
      have hrd := (drainLoop_proceed ws s s' ws' hd).1
      by_cases hpc : s'.pos = s'.cap
      · simp [hpc, hrd, h]
      · simp [hpc]

theorem afterFill_empty (s : CacheSession) (ws : List WriteEvent)
    (fs : List FlushEvent) (hpc : s.pos = s.cap) :
    afterFill s ws fs =
      if s.read_done then .out (flushPhase s fs) else .again s ws := by
  unfold afterFill
  rw [drainLoop_skip s ws (by omega)]
  simp only [if_pos hpc]

/-- Unfolding `poll` when `read_done` is already set: whatever the fuel and
the read script, the call behaves as `pollDone`. -/
theorem pollFuel_read_done (k : Nat) (s : CacheSession) (rs : List ReadEvent)
    (ws : List WriteEvent) (fs : List FlushEvent) (h : s.read_done = true) :
    pollFuel (k + 1) s rs ws fs = pollDone s ws fs := by
  by_cases hpc : s.pos = s.cap
  · simp only [pollFuel, if_pos hpc, h, if_true, afterFill_read_done s ws fs h]
  · simp only [pollFuel, if_neg hpc, afterFill_read_done s ws fs h]

/-- Unfolding `poll` when the pending region is non-empty: the fill check is
skipped and the drain loop runs first. -/
theorem pollFuel_succ_busy (k : Nat) (s : CacheSession) (rs : List ReadEvent)
    (ws : List WriteEvent) (fs : List FlushEvent) (hpc : ¬ s.pos = s.cap) :
    pollFuel (k + 1) s rs ws fs =
      match afterFill s ws fs with
      | .out o => o
      | .again s' ws' => pollFuel k s' rs ws' fs := by
  simp only [pollFuel, if_neg hpc]

/-- Unfolding `poll` at the fill check when the reader has been taken. -/
theorem pollFuel_succ_noreader (k : Nat) (s : CacheSession) (rs : List ReadEvent)
    (ws : List WriteEvent) (fs : List FlushEvent) (hpc : s.pos = s.cap)
    (hrd : s.read_done = false) (hr : s.reader = false) :
    pollFuel (k + 1) s rs ws fs = .panicked s := by
  simp [pollFuel, if_pos hpc, hrd, hr]

/-- Unfolding `poll` at the fill check with an exhausted read script. -/
theorem pollFuel_succ_rnil (k : Nat) (s : CacheSession)
    (ws : List WriteEvent) (fs : List FlushEvent) (hpc : s.pos = s.cap)
    (hrd : s.read_done = false) (hr : s.reader = true) :
    pollFuel (k + 1) s [] ws fs = .notReady s := by
  simp [pollFuel, if_pos hpc, hrd, hr]

/-- Unfolding `poll` at the fill check when the read half is not ready. -/
theorem pollFuel_succ_rnotready (k : Nat) (s : CacheSession) (rs' : List ReadEvent)
    (ws : List WriteEvent) (fs : List FlushEvent) (hpc : s.pos = s.cap)
    (hrd : s.read_done = false) (hr : s.reader = true) :
    pollFuel (k + 1) s (ReadEvent.notReady :: rs') ws fs = .notReady s := by
  simp [pollFuel, if_pos hpc, hrd, hr]

/-- Unfolding `poll` at the fill check when the line reader reports an
error (an I/O or decode failure). -/
theorem pollFuel_succ_rerr (k : Nat) (s : CacheSession) (e : IOError)
    (rs' : List ReadEvent) (ws : List WriteEvent) (fs : List FlushEvent)
    (hpc : s.pos = s.cap) (hrd : s.read_done = false) (hr : s.reader = true) :
    pollFuel (k + 1) s (ReadEvent.err e :: rs') ws fs = .ioErr e s := by
  simp [pollFuel, if_pos hpc, hrd, hr]

/-- Unfolding `poll` at the fill check when a line arrives: the tally is
incremented and the loop starts over. -/
theorem pollFuel_succ_line (k : Nat) (s : CacheSession) (l : List Nat)
    (rs' : List ReadEvent) (ws : List WriteEvent) (fs : List FlushEvent)
    (hpc : s.pos = s.cap) (hrd : s.read_done = false) (hr : s.reader = true) :
    pollFuel (k + 1) s (ReadEvent.line l :: rs') ws fs =
      pollFuel k { s with amt := s.amt + 1 } rs' ws fs := by
  have hA := afterFill_empty { s with amt := s.amt + 1 } ws fs (by simpa using hpc)
  simp only [hrd, hr] at hA
  simp only [pollFuel, if_pos hpc, hrd, hr, hA]
  simp

/-- Unfolding `poll` at the fill check at end-of-stream: `read_done` is set
and, the buffer being empty, the same iteration falls through to the
completion check. -/
theorem pollFuel_succ_eof (k : Nat) (s : CacheSession) (rs' : List ReadEvent)
    (ws : List WriteEvent) (fs : List FlushEvent) (hpc : s.pos = s.cap)
    (hrd : s.read_done = false) (hr : s.reader = true) :
    pollFuel (k + 1) s (ReadEvent.eof :: rs') ws fs =
      flushPhase { s with read_done := true } fs := by
  have hA := afterFill_empty { s with read_done := true } ws fs (by simpa using hpc)
  simp only [hrd, hr] at hA
  simp only [pollFuel, if_pos hpc, hrd, hr, hA]
  simp

theorem pollDone_empty (s : CacheSession) (ws : List WriteEvent)
    (fs : List FlushEvent) (hpc : s.pos = s.cap) :
    pollDone s ws fs = flushPhase s fs := by
  unfold pollDone
  rw [drainLoop_skip s ws (by omega)]
  simp [hpc]

theorem pollDone_state_read_done (s : CacheSession) (ws : List WriteEvent)
    (fs : List FlushEvent) (h : s.read_done = true) :
    (pollDone s ws fs).state.read_done = true := by
  unfold pollDone
  cases hd : drainLoop s ws with
  | proceed s' ws' =>
      have h1 := (drainLoop_proceed ws s s' ws' hd).1
      show (if s'.pos = s'.cap then flushPhase s' fs else .diverge s').state.read_done = true
      by_cases hpc : s'.pos = s'.cap
      · rw [if_pos hpc]
        exact (flushPhase_state s' fs).1.trans (h1.trans h)
      · rw [if_neg hpc]
        exact h1.trans h
  | exit o =>
      exact ((drainLoop_exit ws s o hd).2.1).trans h

/-- A `poll` call on a session whose `read_done` is already set never
touches the read script: it is `pollDone`, whatever `rs` is. -/
theorem poll_read_done (s : CacheSession) (rs : List ReadEvent)
    (ws : List WriteEvent) (fs : List FlushEvent) (h : s.read_done = true) :
    s.poll rs ws fs = pollDone s ws fs :=
  pollFuel_read_done (rs.length + ws.length) s rs ws fs h

/-- From a state with an empty, zero-capacity buffer, any `poll` call leaves
`pos = 0`, `cap = 0` and the buffer untouched. -/
theorem pollFuel_zero_state :
    ∀ (k : Nat) (s : CacheSession) (rs : List ReadEvent) (ws : List WriteEvent)
      (fs : List FlushEvent), s.pos = 0 → s.cap = 0 →
      (pollFuel k s rs ws fs).state.pos = 0 ∧
        (pollFuel k s rs ws fs).state.cap = 0 ∧
        (pollFuel k s rs ws fs).state.buf = s.buf := by
  intro k
  induction k with
  | zero => intro s rs ws fs h0 hc; exact ⟨h0, hc, rfl⟩
  | succ k ih =>
      intro s rs ws fs h0 hc
      have hpc : s.pos = s.cap := by omega
      by_cases hrd : s.read_done = true
      · rw [pollFuel_read_done k s rs ws fs hrd, pollDone_empty s ws fs hpc]
        have hf := flushPhase_state s fs
        exact ⟨hf.2.1.trans h0, hf.2.2.1.trans hc, hf.2.2.2.1⟩
      · have hrd' : s.read_done = false := by simpa using hrd
        by_cases hr : s.reader = true
        · cases rs with
          | nil =>
              rw [pollFuel_succ_rnil k s ws fs hpc hrd' hr]
              exact ⟨h0, hc, rfl⟩
          | cons r rs' =>
              cases r with
              | notReady =>
                  rw [pollFuel_succ_rnotready k s rs' ws fs hpc hrd' hr]
                  exact ⟨h0, hc, rfl⟩
              | err e =>
                  rw [pollFuel_succ_rerr k s e rs' ws fs hpc hrd' hr]
                  exact ⟨h0, hc, rfl⟩
              | line l =>
                  rw [pollFuel_succ_line k s l rs' ws fs hpc hrd' hr]
                  exact ih { s with amt := s.amt + 1 } rs' ws fs h0 hc
              | eof =>
                  rw [pollFuel_succ_eof k s rs' ws fs hpc hrd' hr]
                  have hf := flushPhase_state { s with read_done := true } fs
                  exact ⟨hf.2.1.trans h0, hf.2.2.1.trans hc, hf.2.2.2.1⟩
        · have hr' : s.reader = false := by simpa using hr
          rw [pollFuel_succ_noreader k s rs ws fs hpc hrd' hr']
          exact ⟨h0, hc, rfl⟩

/-- From a state with an empty, zero-capacity buffer, the result of a `poll`
call depends neither on the write script (the drain loop never runs) nor on
the amount of fuel, provided the fuel exceeds the read script. -/
theorem pollFuel_zero_indep :
    ∀ (rs : List ReadEvent) (k k' : Nat) (s : CacheSession)
      (ws ws' : List WriteEvent) (fs : List FlushEvent),
      s.pos = 0 → s.cap = 0 → rs.length < k → rs.length < k' →
      pollFuel k s rs ws fs = pollFuel k' s rs ws' fs := by
  intro rs
  induction rs with
  | nil =>
      intro k k' s ws ws' fs h0 hc hk hk'
      obtain ⟨k1, rfl⟩ : ∃ k1, k = k1 + 1 := ⟨k - 1, by omega⟩
      obtain ⟨k1', rfl⟩ : ∃ k1', k' = k1' + 1 := ⟨k' - 1, by omega⟩
      have hpc : s.pos = s.cap := by omega
      by_cases hrd : s.read_done = true
      · rw [pollFuel_read_done k1 s [] ws fs hrd,
          pollFuel_read_done k1' s [] ws' fs hrd,
          pollDone_empty s ws fs hpc, pollDone_empty s ws' fs hpc]
      · have hrd' : s.read_done = false := by simpa using hrd
        by_cases hr : s.reader = true
        · rw [pollFuel_succ_rnil k1 s ws fs hpc hrd' hr,
            pollFuel_succ_rnil k1' s ws' fs hpc hrd' hr]
        · have hr' : s.reader = false := by simpa using hr
          rw [pollFuel_succ_noreader k1 s [] ws fs hpc hrd' hr',
            pollFuel_succ_noreader k1' s [] ws' fs hpc hrd' hr']
  | cons r rs ih =>
      intro k k' s ws ws' fs h0 hc hk hk'
      obtain ⟨k1, rfl⟩ : ∃ k1, k = k1 + 1 := ⟨k - 1, by omega⟩
      obtain ⟨k1', rfl⟩ : ∃ k1', k' = k1' + 1 := ⟨k' - 1, by omega⟩
      have hpc : s.pos = s.cap := by omega
      by_cases hrd : s.read_done = true
      · rw [pollFuel_read_done k1 s (r :: rs) ws fs hrd,
          pollFuel_read_done k1' s (r :: rs) ws' fs hrd,
          pollDone_empty s ws fs hpc, pollDone_empty s ws' fs hpc]
      · have hrd' : s.read_done = false := by simpa using hrd
        by_cases hr : s.reader = true
        · cases r with
          | notReady =>
              rw [pollFuel_succ_rnotready k1 s rs ws fs hpc hrd' hr,
                pollFuel_succ_rnotready k1' s rs ws' fs hpc hrd' hr]
          | err e =>
              rw [pollFuel_succ_rerr k1 s e rs ws fs hpc hrd' hr,
                pollFuel_succ_rerr k1' s e rs ws' fs hpc hrd' hr]
          | line l =>
              rw [pollFuel_succ_line k1 s l rs ws fs hpc hrd' hr,
                pollFuel_succ_line k1' s l rs ws' fs hpc hrd' hr]
              exact ih k1 k1' { s with amt := s.amt + 1 } ws ws' fs h0 hc
                (by simp at hk; omega) (by simp at hk'; omega)
          | eof =>
              rw [pollFuel_succ_eof k1 s rs ws fs hpc hrd' hr,
                pollFuel_succ_eof k1' s rs ws' fs hpc hrd' hr]
        · have hr' : s.reader = false := by simpa using hr
          rw [pollFuel_succ_noreader k1 s (r :: rs) ws fs hpc hrd' hr',
            pollFuel_succ_noreader k1' s (r :: rs) ws' fs hpc hrd' hr']

/-- Consuming a block of produced lines: each line costs one unit of fuel
and one read event and bumps the tally by one, everything else unchanged. -/
theorem pollFuel_lines :
    ∀ (L : List (List Nat)) (k : Nat) (s : CacheSession) (rs : List ReadEvent)
      (ws : List WriteEvent) (fs : List FlushEvent),
      s.pos = 0 → s.cap = 0 → s.read_done = false → s.reader = true →
      pollFuel (k + L.length + 1) s (L.map ReadEvent.line ++ rs) ws fs =
        pollFuel (k + 1) { s with amt := s.amt + L.length } rs ws fs := by
  intro L
  induction L with
  | nil =>
      intro k s rs ws fs h0 hc hrd hr
      simp
  | cons l L ih =>
      intro k s rs ws fs h0 hc hrd hr
      have hpc : s.pos = s.cap := by omega
      have e1 : k + (l :: L).length + 1 = (k + L.length + 1) + 1 := by
        simp [List.length_cons]; omega
      rw [e1, List.map_cons, List.cons_append,
        pollFuel_succ_line (k + L.length + 1) s l (L.map ReadEvent.line ++ rs) ws fs hpc hrd hr,
        ih k { s with amt := s.amt + 1 } rs ws fs h0 hc hrd hr]
      simp only [List.length_cons]
      rw [show s.amt + 1 + L.length = s.amt + (L.length + 1) from by omega]

/-- At end-of-stream with an empty buffer and a ready flush, the session
resolves in the same `poll` call, with both halves taken. -/
theorem pollFuel_eof_flushOk (k : Nat) (s : CacheSession) (rs' : List ReadEvent)
    (ws : List WriteEvent) (fs : List FlushEvent) (h0 : s.pos = 0) (hc : s.cap = 0)
    (hrd : s.read_done = false) (hr : s.reader = true) (hw : s.writer = true) :
    pollFuel (k + 1) s (ReadEvent.eof :: rs') ws (FlushEvent.flushOk :: fs) =
      .ready s.amt { s with read_done := true, reader := false, writer := false } := by
  rw [pollFuel_succ_eof k s rs' ws (FlushEvent.flushOk :: fs) (by omega) hrd hr]
  unfold flushPhase
  simp [hw, hr]

/-- A complete session run: the peer's reader produces the lines `L` and
then end-of-stream, the flush succeeds; the session resolves with tally
`L.length`. -/
theorem poll_complete_lines (L : List (List Nat)) (ws : List WriteEvent)
    (fs : List FlushEvent) :
    cache_session.poll (L.map ReadEvent.line ++ [ReadEvent.eof]) ws
        (FlushEvent.flushOk :: fs) =
      .ready L.length
        { cache_session with
            amt := L.length, read_done := true, reader := false, writer := false } := by
  unfold CacheSession.poll
  have hlen : (L.map ReadEvent.line ++ [ReadEvent.eof]).length = L.length + 1 := by
    simp
  rw [hlen, show L.length + 1 + ws.length + 1 = (ws.length + 1) + L.length + 1 from by omega,
    pollFuel_lines L (ws.length + 1) cache_session [ReadEvent.eof] ws
      (FlushEvent.flushOk :: fs) rfl rfl rfl rfl,
    pollFuel_eof_flushOk (ws.length + 1) { cache_session with amt := cache_session.amt + L.length }
      [] ws fs rfl rfl rfl rfl rfl]
  have ha : cache_session.amt = 0 := rfl
  rw [ha, Nat.zero_add]

/-- What must hold whenever a `poll` call resolves successfully: the flush
ran (and succeeded) in a state with `read_done` set and an empty pending
region, both halves were taken, and the reported tally is the state's. -/
def ReadyInv (fs : List FlushEvent) (a : Nat) (t : CacheSession) : Prop :=
  t.read_done = true ∧ t.pos = t.cap ∧ t.reader = false ∧ t.writer = false ∧
    a = t.amt ∧ FlushEvent.flushOk ∈ fs

theorem afterFill_out_ready (s : CacheSession) (ws : List WriteEvent)
    (fs : List FlushEvent) (a : Nat) (t : CacheSession)
    (h : afterFill s ws fs = .out (.ready a t)) : ReadyInv fs a t := by
  unfold afterFill at h
  cases hd : drainLoop s ws with
  | exit o =>
      rw [hd] at h
      have h2 : LoopStep.out o = LoopStep.out (Outcome.ready a t) := h
      injection h2 with h'
      exact absurd h' ((drainLoop_exit ws s o hd).1 a t)
  | proceed s' ws' =>
      rw [hd] at h
      have h2 : (if s'.pos = s'.cap then
          if s'.read_done = true then LoopStep.out (flushPhase s' fs)
          else LoopStep.again s' ws'
        else LoopStep.out (Outcome.diverge s')) = LoopStep.out (Outcome.ready a t) := h
      by_cases h1 : s'.pos = s'.cap
      · rw [if_pos h1] at h2
        by_cases hrd : s'.read_done = true
        · rw [if_pos hrd] at h2
          injection h2 with h3
          obtain ⟨ht, ha, hm⟩ := flushPhase_ready s' fs a t h3
          subst ht
          exact ⟨hrd, h1, rfl, rfl, ha, hm⟩
        · rw [if_neg hrd] at h2
          exact LoopStep.noConfusion h2
      · rw [if_neg h1] at h2
        injection h2 with h'
        exact Outcome.noConfusion h'

/-- However much fuel a `poll` call gets, a successful resolution
establishes `ReadyInv`. -/
theorem pollFuel_ready_inv :
    ∀ (k : Nat) (s : CacheSession) (rs : List ReadEvent) (ws : List WriteEvent)
      (fs : List FlushEvent) (a : Nat) (t : CacheSession),
      pollFuel k s rs ws fs = .ready a t → ReadyInv fs a t := by
  intro k
  induction k with
  | zero => intro s rs ws fs a t h; cases h
  | succ k ih =>
      intro s rs ws fs a t h
      by_cases hpc : s.pos = s.cap
      · by_cases hrd : s.read_done = true
        · rw [pollFuel_read_done k s rs ws fs hrd, pollDone_empty s ws fs hpc] at h
          obtain ⟨ht, ha, hm⟩ := flushPhase_ready s fs a t h
          subst ht
          exact ⟨hrd, hpc, rfl, rfl, ha, hm⟩
        · have hrd' : s.read_done = false := by simpa using hrd
          by_cases hr : s.reader = true
          · cases rs with
            | nil => rw [pollFuel_succ_rnil k s ws fs hpc hrd' hr] at h; cases h
            | cons r rs' =>
                cases r with
                | notReady =>
                    rw [pollFuel_succ_rnotready k s rs' ws fs hpc hrd' hr] at h
                    cases h
                | err e =>
                    rw [pollFuel_succ_rerr k s e rs' ws fs hpc hrd' hr] at h
                    cases h
                | line l =>
                    rw [pollFuel_succ_line k s l rs' ws fs hpc hrd' hr] at h
                    exact ih { s with amt := s.amt + 1 } rs' ws fs a t h
                | eof =>
                    rw [pollFuel_succ_eof k s rs' ws fs hpc hrd' hr] at h
                    obtain ⟨ht, ha, hm⟩ :=
                      flushPhase_ready { s with read_done := true } fs a t h
                    subst ht
                    exact ⟨rfl, hpc, rfl, rfl, ha, hm⟩
          · have hr' : s.reader = false := by simpa using hr
            rw [pollFuel_succ_noreader k s rs ws fs hpc hrd' hr'] at h
            cases h
      · rw [pollFuel_succ_busy k s rs ws fs hpc] at h
        cases hA : afterFill s ws fs with
        | out o =>
            rw [hA] at h
            have h' : o = Outcome.ready a t := h
            subst h'
            exact afterFill_out_ready s ws fs a t hA
        | again s' ws' =>
            rw [hA] at h
            have h' : pollFuel k s' rs ws' fs = Outcome.ready a t := h
            exact ih s' rs ws' fs a t h'

/-- The state carried by the result of `afterFill` has the same `read_done`
flag as the state it started from. -/
theorem afterFill_rd_pres (s : CacheSession) (ws : List WriteEvent)
    (fs : List FlushEvent) :
    (∀ o, afterFill s ws fs = .out o → o.state.read_done = s.read_done) ∧
      (∀ s' ws', afterFill s ws fs = .again s' ws' → s'.read_done = s.read_done) := by
  unfold afterFill
  cases hd : drainLoop s ws with
  | exit o0 =>
      refine ⟨?_, ?_⟩
      · intro o h
        have h2 : LoopStep.out o0 = LoopStep.out o := h
        injection h2 with h'
        subst h'
        exact (drainLoop_exit ws s o0 hd).2.1
      · intro s' ws' h
        cases h
  | proceed s0 ws0 =>
      have h1 := (drainLoop_proceed ws s s0 ws0 hd).1
      refine ⟨?_, ?_⟩
      · intro o h
        have h2 : (if s0.pos = s0.cap then
            if s0.read_done = true then LoopStep.out (flushPhase s0 fs)
            else LoopStep.again s0 ws0
          else LoopStep.out (Outcome.diverge s0)) = LoopStep.out o := h
        by_cases hpc : s0.pos = s0.cap
        · rw [if_pos hpc] at h2
          by_cases hrd : s0.read_done = true
          · rw [if_pos hrd] at h2
            injection h2 with h'
            subst h'
            exact (flushPhase_state s0 fs).1.trans h1
          · rw [if_neg hrd] at h2
            exact LoopStep.noConfusion h2
        · rw [if_neg hpc] at h2
          injection h2 with h'
          subst h'
          exact h1
      · intro s' ws' h
        have h2 : (if s0.pos = s0.cap then
            if s0.read_done = true then LoopStep.out (flushPhase s0 fs)
            else LoopStep.again s0 ws0
          else LoopStep.out (Outcome.diverge s0)) = LoopStep.again s' ws' := h
        by_cases hpc : s0.pos = s0.cap
        · rw [if_pos hpc] at h2
          by_cases hrd : s0.read_done = true
          · rw [if_pos hrd] at h2
            exact LoopStep.noConfusion h2
          · rw [if_neg hrd] at h2
            injection h2 with e1 e2
            subst e1
            exact h1
        · rw [if_neg hpc] at h2
          exact LoopStep.noConfusion h2

/-- `read_done` only ever becomes true by consuming an end-of-stream event
from the read script. -/
theorem pollFuel_read_done_source :
    ∀ (k : Nat) (s : CacheSession) (rs : List ReadEvent) (ws : List WriteEvent)
      (fs : List FlushEvent),
      s.read_done = false →
      (pollFuel k s rs ws fs).state.read_done = true →
      ReadEvent.eof ∈ rs := by
  intro k
  induction k with
  | zero =>
      intro s rs ws fs hrd hdone
      rw [show (pollFuel 0 s rs ws fs).state = s from rfl, hrd] at hdone
      cases hdone
  | succ k ih =>
      intro s rs ws fs hrd hdone
      by_cases hpc : s.pos = s.cap
      · by_cases hr : s.reader = true
        · cases rs with
          | nil =>
              rw [pollFuel_succ_rnil k s ws fs hpc hrd hr] at hdone
              rw [show (Outcome.notReady s).state = s from rfl, hrd] at hdone
              cases hdone
          | cons r rs' =>
              cases r with
              | notReady =>
                  rw [pollFuel_succ_rnotready k s rs' ws fs hpc hrd hr] at hdone
                  rw [show (Outcome.notReady s).state = s from rfl, hrd] at hdone
                  cases hdone
              | err e =>
                  rw [pollFuel_succ_rerr k s e rs' ws fs hpc hrd hr] at hdone
                  rw [show (Outcome.ioErr e s).state = s from rfl, hrd] at hdone
                  cases hdone
              | line l =>
                  rw [pollFuel_succ_line k s l rs' ws fs hpc hrd hr] at hdone
                  exact List.mem_cons_of_mem _
                    (ih { s with amt := s.amt + 1 } rs' ws fs hrd hdone)
              | eof => exact List.mem_cons_self _ _
        · have hr' : s.reader = false := by simpa using hr
          rw [pollFuel_succ_noreader k s rs ws fs hpc hrd hr'] at hdone
          rw [show (Outcome.panicked s).state = s from rfl, hrd] at hdone
          cases hdone
      · rw [pollFuel_succ_busy k s rs ws fs hpc] at hdone
        cases hA : afterFill s ws fs with
        | out o =>
            rw [hA] at hdone
            have h1 : o.state.read_done = true := hdone
            rw [(afterFill_rd_pres s ws fs).1 o hA, hrd] at h1
            cases h1
        | again s' ws' =>
            rw [hA] at hdone
            have h1 : (pollFuel k s' rs ws' fs).state.read_done = true := hdone
            exact ih s' rs ws' fs
              (((afterFill_rd_pres s ws fs).2 s' ws' hA).trans hrd) h1

/-- The default bind address (`main.rs` line 124). -/
def defaultAddr : String := "127.0.0.1:8080"

/-- `env::args().nth(1).unwrap_or("127.0.0.1:8080".to_string())`
(`main.rs` line 124): `args` includes the program name at index 0, so the
single positional argument is index 1. -/
def chosenAddr (args : List String) : String := (args.get? 1).getD defaultAddr

/-- How `main` can end its startup phase (`main.rs` lines 124-131): `?` on
the address parse aborts the process with the parse error (non-zero exit,
nothing bound yet), `?` on the bind aborts with the bind error, otherwise
the listener is up. -/
inductive StartupOutcome (α : Type) : Type
  | parseFailure
  | bindFailure (a : α)
  | listening (a : α)
deriving DecidableEq

/-- The startup sequence of `main` (`main.rs` lines 123-131): choose the
address string, parse it (the platform's `SocketAddr` parser and the bind
result are supplied as oracles), then bind. -/
def mainStartup {α : Type} (parse : String → Option α) (bindOk : α → Bool)
    (args : List String) : StartupOutcome α :=
  match parse (chosenAddr args) with
  | none => .parseFailure
  | some a => if bindOk a then .listening a else .bindFailure a

/-- Every reachable session state still has `pos = 0`, `cap = 0` and the
original zeroed buffer. -/
theorem reachable_zero (s : CacheSession) (h : Reachable s) :
    s.pos = 0 ∧ s.cap = 0 ∧ s.buf = List.replicate 2048 0 := by
  induction h with
  | refl => exact ⟨rfl, rfl, rfl⟩
  | tail hab hbc ih =>
      obtain ⟨rs, ws, fs, hstep⟩ := hbc
      subst hstep
      obtain ⟨h1, h2, h3⟩ := ih
      have hz := pollFuel_zero_state (rs.length + ws.length + 1) _ rs ws fs h1 h2
      exact ⟨hz.1, hz.2.1, hz.2.2.trans h3⟩

/-- C1: for a peer whose bytes reach the session in any chunking and contain
`N` newline-terminated lines, followed by closing the write side, the
completed session resolves with tally exactly `N` — one increment per line,
independent of the chunk boundaries and of the write script. -/
theorem claim_C1_tally_counts_lines (chunks : List (List Nat))
    (ws : List WriteEvent) (fs : List FlushEvent) :
    cache_session.poll (readEventsOf chunks) ws (FlushEvent.flushOk :: fs) =
      .ready (countNewlines chunks.flatten)
        { cache_session with
            amt := countNewlines chunks.flatten, read_done := true,
            reader := false, writer := false } := by
  unfold readEventsOf
  have hL : (lineReaderRun [] chunks).length = countNewlines chunks.flatten := by
    simpa using lineReaderRun_length chunks [] rfl
  rw [poll_complete_lines (lineReaderRun [] chunks) ws fs, hL]

/-- C2: on every reachable state, `cap` and `pos` are still `0`; the drain
loop therefore never consults the write half (the result of a `poll` call is
independent of the write script), and once end-of-stream has been observed a
single successful flush completes the session. -/
theorem claim_C2_cap_stays_zero (s : CacheSession) (h : Reachable s) :
    s.pos = 0 ∧ s.cap = 0 ∧
      (∀ rs ws ws' fs, s.poll rs ws fs = s.poll rs ws' fs) ∧
      (∀ rs ws fs, s.read_done = true → s.reader = true → s.writer = true →
        s.poll rs ws (FlushEvent.flushOk :: fs) =
          .ready s.amt { s with reader := false, writer := false }) := by
  obtain ⟨h0, hc, _⟩ := reachable_zero s h
  refine ⟨h0, hc, ?_, ?_⟩
  · intro rs ws ws' fs
    exact pollFuel_zero_indep rs (rs.length + ws.length + 1)
      (rs.length + ws'.length + 1) s ws ws' fs h0 hc (by omega) (by omega)
  · intro rs ws fs hrd hr hw
    rw [poll_read_done s rs ws (FlushEvent.flushOk :: fs) hrd,
      pollDone_empty s ws (FlushEvent.flushOk :: fs) (by omega)]
    unfold flushPhase
    simp [hw, hr]

theorem claim_C2_witness :
    cache_session.pos = 0 ∧ cache_session.cap = 0 ∧
      cache_session.poll [] [WriteEvent.wrote 7] [] = cache_session.poll [] [] [] := by
  obtain ⟨h1, h2, h3, _⟩ :=
    claim_C2_cap_stays_zero cache_session Relation.ReflTransGen.refl
  exact ⟨h1, h2, h3 [] [WriteEvent.wrote 7] [] []⟩

/-- C3: a zero-byte write accepted while the pending region
`[pos, cap)` is non-empty makes the very same `poll` call return the
`WriteZero` error, with the state unchanged. -/
theorem claim_C3_write_zero (s : CacheSession) (rs : List ReadEvent)
    (ws : List WriteEvent) (fs : List FlushEvent) (hpend : s.pos < s.cap)
    (hbuf : s.cap ≤ s.buf.length) (hw : s.writer = true) :
    s.poll rs (WriteEvent.wrote 0 :: ws) fs = .ioErr writeZeroError s := by
  have hpc : ¬ s.pos = s.cap := by omega
  have hD : drainLoop s (WriteEvent.wrote 0 :: ws) =
      .exit (.ioErr writeZeroError s) := by
    simp [drainLoop, hpend, hw, show ¬ s.buf.length < s.cap from by omega]
  have hA : afterFill s (WriteEvent.wrote 0 :: ws) fs =
      .out (.ioErr writeZeroError s) := by
    unfold afterFill
    rw [hD]
  unfold CacheSession.poll
  rw [pollFuel_succ_busy (rs.length + (WriteEvent.wrote 0 :: ws).length) s rs
    (WriteEvent.wrote 0 :: ws) fs hpc, hA]

theorem claim_C3_witness :
    (({ cache_session with cap := 1 } : CacheSession).pos <
        ({ cache_session with cap := 1 } : CacheSession).cap) ∧
      CacheSession.poll { cache_session with cap := 1 } []
          [WriteEvent.wrote 0] [] =
        .ioErr writeZeroError { cache_session with cap := 1 } := by
  refine ⟨by show (0 : Nat) < 1; omega,
    claim_C3_write_zero _ [] [] [] (by show (0 : Nat) < 1; omega) ?_ rfl⟩
  show (1 : Nat) ≤ (List.replicate 2048 (0 : Nat)).length
  rw [List.length_replicate]
  omega

/-- C4: `read_done` is set exactly by consuming an end-of-stream event
(conjuncts 1 and 3), never reverts once true (conjunct 2), and once it is
true no `poll` call ever consults the read script again (conjunct 4). -/
theorem claim_C4_read_done_once :
    (∀ (s : CacheSession) (rs' : List ReadEvent) (ws : List WriteEvent)
        (fs : List FlushEvent), s.pos = s.cap → s.read_done = false →
        s.reader = true →
        ((s.poll (ReadEvent.eof :: rs') ws fs).state).read_done = true) ∧
      (∀ (s : CacheSession) (rs : List ReadEvent) (ws : List WriteEvent)
        (fs : List FlushEvent), s.read_done = true →
        ((s.poll rs ws fs).state).read_done = true) ∧
      (∀ (s : CacheSession) (rs : List ReadEvent) (ws : List WriteEvent)
        (fs : List FlushEvent), s.read_done = false →
        ((s.poll rs ws fs).state).read_done = true → ReadEvent.eof ∈ rs) ∧
      (∀ (s : CacheSession) (rs rs' : List ReadEvent) (ws : List WriteEvent)
        (fs : List FlushEvent), s.read_done = true →
        s.poll rs ws fs = s.poll rs' ws fs) := by
  refine ⟨?_, ?_, ?_, ?_⟩
  · intro s rs' ws fs hpc hrd hr
    have h2 : s.poll (ReadEvent.eof :: rs') ws fs =
        flushPhase { s with read_done := true } fs :=
      pollFuel_succ_eof ((ReadEvent.eof :: rs').length + ws.length) s rs' ws fs
        hpc hrd hr
    rw [h2]
    exact (flushPhase_state { s with read_done := true } fs).1
  · intro s rs ws fs hrd
    rw [poll_read_done s rs ws fs hrd]
    exact pollDone_state_read_done s ws fs hrd
  · intro s rs ws fs hrd hdone
    exact pollFuel_read_done_source (rs.length + ws.length + 1) s rs ws fs hrd hdone
  · intro s rs rs' ws fs hrd
    rw [poll_read_done s rs ws fs hrd, poll_read_done s rs' ws fs hrd]

theorem claim_C4_witness :
    ((cache_session.poll [ReadEvent.eof] [] []).state).read_done = true ∧
      ({ cache_session with read_done := true } : CacheSession).poll
          [ReadEvent.eof] [] [] =
        ({ cache_session with read_done := true } : CacheSession).poll [] [] [] := by
  exact ⟨claim_C4_read_done_once.1 cache_session [] [] [] rfl rfl rfl,
    claim_C4_read_done_once.2.2.2 _ [ReadEvent.eof] [] [] [] rfl⟩

/-- C5: a session reports success only through a flush that was attempted
and succeeded in a state with `read_done` set and an empty pending region;
it then yields the triple `(tally, read_half, write_half)`: the reported
amount is the state's tally and both halves have been taken out. -/
theorem claim_C5_flush_before_done (s : CacheSession) (rs : List ReadEvent)
    (ws : List WriteEvent) (fs : List FlushEvent) (a : Nat) (t : CacheSession)
    (h : s.poll rs ws fs = .ready a t) :
    t.read_done = true ∧ t.pos = t.cap ∧ t.reader = false ∧ t.writer = false ∧
      a = t.amt ∧ FlushEvent.flushOk ∈ fs :=
  pollFuel_ready_inv (rs.length + ws.length + 1) s rs ws fs a t h

theorem claim_C5_witness :
    cache_session.poll [ReadEvent.eof] [] [FlushEvent.flushOk] =
        .ready 0 { cache_session with read_done := true, reader := false, writer := false } ∧
      (({ cache_session with read_done := true, reader := false, writer := false } : CacheSession).read_done = true ∧
        FlushEvent.flushOk ∈ [FlushEvent.flushOk]) := by
  have h : cache_session.poll [ReadEvent.eof] [] [FlushEvent.flushOk] =
      .ready 0 { cache_session with read_done := true, reader := false, writer := false } := by
    rfl
  have h5 := claim_C5_flush_before_done cache_session [ReadEvent.eof] []
    [FlushEvent.flushOk] 0 _ h
  exact ⟨h, h5.1, h5.2.2.2.2.2⟩

/-- C6: every reachable session state satisfies
`0 ≤ pos ≤ cap ≤ 2048` (with `2048` the buffer's actual length), and every
further `poll` call preserves the invariant. -/
theorem claim_C6_buffer_invariant (s : CacheSession) (h : Reachable s) :
    (0 ≤ s.pos ∧ s.pos ≤ s.cap ∧ s.cap ≤ 2048 ∧ s.buf.length = 2048) ∧
      (∀ rs ws fs,
        (s.poll rs ws fs).state.pos ≤ (s.poll rs ws fs).state.cap ∧
          (s.poll rs ws fs).state.cap ≤ 2048) := by
  obtain ⟨h0, hc, hb⟩ := reachable_zero s h
  refine ⟨⟨Nat.zero_le _, by omega, by omega, by rw [hb, List.length_replicate]⟩, ?_⟩
  intro rs ws fs
  have hz := pollFuel_zero_state (rs.length + ws.length + 1) s rs ws fs h0 hc
  have hz1 : (s.poll rs ws fs).state.pos = 0 := hz.1
  have hz2 : (s.poll rs ws fs).state.cap = 0 := hz.2.1
  omega

theorem claim_C6_witness :
    (0 ≤ cache_session.pos ∧ cache_session.pos ≤ cache_session.cap ∧
        cache_session.cap ≤ 2048 ∧ cache_session.buf.length = 2048) ∧
      ((cache_session.poll [] [] []).state.pos ≤
          (cache_session.poll [] [] []).state.cap ∧
        (cache_session.poll [] [] []).state.cap ≤ 2048) := by
  obtain ⟨ha, hb⟩ :=
    claim_C6_buffer_invariant cache_session Relation.ReflTransGen.refl
  exact ⟨ha, hb [] [] []⟩

/-- C7: a peer that sends bytes with no newline and then closes produces no
line: the final tally is `0`, `read_done` is set by the close, and the
session goes straight to the flush and completes. -/
theorem claim_C7_no_newline_no_line (chunks : List (List Nat))
    (ws : List WriteEvent) (fs : List FlushEvent)
    (hnl : countNewlines chunks.flatten = 0) :
    cache_session.poll (readEventsOf chunks) ws (FlushEvent.flushOk :: fs) =
      .ready 0
        { cache_session with read_done := true, reader := false, writer := false } := by
  unfold readEventsOf
  have hL : (lineReaderRun [] chunks).length = 0 := by
    have h1 := lineReaderRun_length chunks [] rfl
    simpa [hnl] using h1
  have hnil : lineReaderRun [] chunks = [] := List.length_eq_zero.mp hL
  rw [hnil]
  simpa using poll_complete_lines [] ws fs

theorem claim_C7_witness :
    countNewlines ([[112, 97, 114, 116, 105, 97, 108]] : List (List Nat)).flatten = 0 ∧
      cache_session.poll (readEventsOf [[112, 97, 114, 116, 105, 97, 108]]) []
          [FlushEvent.flushOk] =
        .ready 0
          { cache_session with read_done := true, reader := false, writer := false } :=
  ⟨by decide, claim_C7_no_newline_no_line [[112, 97, 114, 116, 105, 97, 108]] [] []
    (by decide)⟩

/-- C8: an error surfaced by the line reader (including a decode failure of
invalid text), by a write of the pending region, or by the final flush makes
that same `poll` call return `Err` with that error, with no retry: the state
is left exactly as it was. -/
theorem claim_C8_errors_fatal (s : CacheSession) (e : IOError)
    (rs : List ReadEvent) (ws : List WriteEvent) (fs : List FlushEvent) :
    (s.pos = s.cap → s.read_done = false → s.reader = true →
        s.poll (ReadEvent.err e :: rs) ws fs = .ioErr e s) ∧
      (s.pos < s.cap → s.cap ≤ s.buf.length → s.writer = true →
        s.poll rs (WriteEvent.err e :: ws) fs = .ioErr e s) ∧
      (s.pos = s.cap → s.read_done = true → s.writer = true →
        s.poll rs ws (FlushEvent.err e :: fs) = .ioErr e s) := by
  refine ⟨?_, ?_, ?_⟩
  · intro hpc hrd hr
    exact pollFuel_succ_rerr ((ReadEvent.err e :: rs).length + ws.length) s e rs
      ws fs hpc hrd hr
  · intro hpend hbuf hw
    have hpc : ¬ s.pos = s.cap := by omega
    have hD : drainLoop s (WriteEvent.err e :: ws) = .exit (.ioErr e s) := by
      simp [drainLoop, hpend, hw, show ¬ s.buf.length < s.cap from by omega]
    have hA : afterFill s (WriteEvent.err e :: ws) fs = .out (.ioErr e s) := by
      unfold afterFill
      rw [hD]
    unfold CacheSession.poll
    rw [pollFuel_succ_busy (rs.length + (WriteEvent.err e :: ws).length) s rs
      (WriteEvent.err e :: ws) fs hpc, hA]
  · intro hpc hrd hw
    rw [poll_read_done s rs ws (FlushEvent.err e :: fs) hrd,
      pollDone_empty s ws (FlushEvent.err e :: fs) (by omega)]
    unfold flushPhase
    simp [hw]

theorem claim_C8_witness :
    cache_session.poll [ReadEvent.err ⟨ErrorKind.invalidData, "stream did not contain valid UTF-8"⟩] [] [] =
        .ioErr ⟨ErrorKind.invalidData, "stream did not contain valid UTF-8"⟩ cache_session ∧
      CacheSession.poll { cache_session with cap := 1 } []
          [WriteEvent.err ⟨ErrorKind.other 32, "broken pipe"⟩] [] =
        .ioErr ⟨ErrorKind.other 32, "broken pipe"⟩ { cache_session with cap := 1 } ∧
      ({ cache_session with read_done := true } : CacheSession).poll [] []
          [FlushEvent.err ⟨ErrorKind.other 32, "broken pipe"⟩] =
        .ioErr ⟨ErrorKind.other 32, "broken pipe"⟩
          { cache_session with read_done := true } := by
  refine ⟨(claim_C8_errors_fatal cache_session
        ⟨ErrorKind.invalidData, "stream did not contain valid UTF-8"⟩ [] [] []).1
      rfl rfl rfl,
    (claim_C8_errors_fatal { cache_session with cap := 1 }
        ⟨ErrorKind.other 32, "broken pipe"⟩ [] [] []).2.1
      (by show (0 : Nat) < 1; omega) ?_ rfl,
    (claim_C8_errors_fatal { cache_session with read_done := true }
        ⟨ErrorKind.other 32, "broken pipe"⟩ [] [] []).2.2 rfl rfl rfl⟩
  show (1 : Nat) ≤ (List.replicate 2048 (0 : Nat)).length
  rw [List.length_replicate]
  omega

/-- C9: the bind address comes from the single optional positional argument,
defaulting to `127.0.0.1:8080`; when it does not parse, startup ends in the
parse failure (a non-zero exit) before the bind oracle is ever consulted. -/
theorem claim_C9_addr_parse {α : Type} (parse : String → Option α)
    (bindOk bindOk' : α → Bool) (args : List String) (p a : String) :
    chosenAddr [p] = "127.0.0.1:8080" ∧
      chosenAddr [p, a] = a ∧
      (parse (chosenAddr args) = none →
        mainStartup parse bindOk args = .parseFailure ∧
          mainStartup parse bindOk args = mainStartup parse bindOk' args) := by
  refine ⟨rfl, rfl, ?_⟩
  intro h
  unfold mainStartup
  rw [h]
  exact ⟨rfl, rfl⟩

theorem claim_C9_witness :
    chosenAddr ["server"] = "127.0.0.1:8080" ∧
      chosenAddr ["server", "0.0.0.0:9000"] = "0.0.0.0:9000" ∧
      mainStartup (fun _ => (none : Option String)) (fun _ => true)
          ["server", "not-an-address"] = .parseFailure := by
  obtain ⟨h1, _, h3⟩ := claim_C9_addr_parse (fun _ => (none : Option String))
    (fun _ => true) (fun _ => false) ["server", "not-an-address"] "server"
    "0.0.0.0:9000"
  exact ⟨h1, rfl, (h3 rfl).1⟩

/-- C10: a successful resolution leaves both `reader` and `writer` at
`None`, and polling the session again in that state panics on an `unwrap`
of `None` (the writer's unwrap at the flush step). -/
theorem claim_C10_poll_after_done_panics :
    (∀ (s : CacheSession) (rs : List ReadEvent) (ws : List WriteEvent)
        (fs : List FlushEvent) (a : Nat) (t : CacheSession),
        s.poll rs ws fs = .ready a t → t.reader = false ∧ t.writer = false) ∧
      (∀ (t : CacheSession) (rs : List ReadEvent) (ws : List WriteEvent)
        (fs : List FlushEvent), t.reader = false → t.writer = false →
        t.read_done = true → t.pos = t.cap → t.poll rs ws fs = .panicked t) := by
  constructor
  · intro s rs ws fs a t h
    have hri := pollFuel_ready_inv (rs.length + ws.length + 1) s rs ws fs a t h
    exact ⟨hri.2.2.1, hri.2.2.2.1⟩
  · intro t rs ws fs hr hw hrd hpc
    rw [poll_read_done t rs ws fs hrd, pollDone_empty t ws fs (by omega)]
    unfold flushPhase
    simp [hw]

theorem claim_C10_witness :
    cache_session.poll [ReadEvent.eof] [] [FlushEvent.flushOk] =
        .ready 0 { cache_session with read_done := true, reader := false, writer := false } ∧
      (({ cache_session with read_done := true, reader := false, writer := false } : CacheSession).reader = false ∧
        ({ cache_session with read_done := true, reader := false, writer := false } : CacheSession).writer = false) ∧
      ({ cache_session with read_done := true, reader := false, writer := false } : CacheSession).poll
          [] [] [FlushEvent.flushOk] =
        .panicked { cache_session with read_done := true, reader := false, writer := false } := by
  have h : cache_session.poll [ReadEvent.eof] [] [FlushEvent.flushOk] =
      .ready 0
        { cache_session with read_done := true, reader := false, writer := false } := by
    rfl
  exact ⟨h,
    claim_C10_poll_after_done_panics.1 cache_session [ReadEvent.eof] []
      [FlushEvent.flushOk] 0 _ h,
    claim_C10_poll_after_done_panics.2 _ [] [] [FlushEvent.flushOk] rfl rfl rfl rfl⟩
